import Mathlib

/-!
Verification of the Spoolman column-editor subsystem.

The definitions below shallowly embed the column-layout logic of the
repository: the `resolvedOrder` reconciliation computed in the column editor
modal (`src/unnamed/part_000`, lines 120-124) and, identically, in the
`columnOrder` initializer/`useEffect` of `src/client/src/pages/filaments/list.tsx`
(lines 134-151) and `src/client/src/pages/vendors/list.tsx` (lines 75-92);
the drag-reorder `moveColumn` (part_000, 126-133); the visibility
`toggleColumn` on a JS `Set` (part_000, 135-145); the width map
`updateWidth` (part_000, 147-157); the modal's confirm emission
(part_000, 159-172) and the pages' `onApply` handler; and the column resize
handler `handleResizeStart` of both list pages.

JS string-keyed objects (`Record<string, number>`) are embedded as
association lists with at most one binding per key observable through
`lookupKey`; a JS `Set` is embedded as its insertion-ordered list of
distinct elements; JS numbers on the resize path are embedded as rationals
(the inputs) with `Math.round` as `round : ℚ → ℤ`.
-/

namespace Spoolman

/-- Embeds `resolvedOrder` (part_000 lines 120-124):
`known = order.filter(id => columnsById.has(id))`,
`missing = columns.filter(c => !known.includes(c.id)).map(c => c.id)`,
result `[...known, ...missing]`.  The `columnOrder` reconciliation in
filaments/vendors `list.tsx` is the same computation
(`filtered = prev.filter(id => known.has(id))`, then
`missing = all.filter(id => !filtered.includes(id))`).
Spec name: `reconcile(savedOrder, registry)`. -/
def reconcile (savedOrder registry : List String) : List String :=
  let known := savedOrder.filter (fun id => decide (id ∈ registry))
  let missing := registry.filter (fun id => decide (id ∉ known))
  known ++ missing

/-- The reconciliation exactly as the spec words it: elements of
`savedOrder` that exist in `registry`, in their relative order, followed by
the elements of `registry` not present in `savedOrder`, in registry order.
(The code filters the appended part against `known`, not against
`savedOrder`; this definition is the spec side of that comparison.) -/
def reconcileSpec (savedOrder registry : List String) : List String :=
  savedOrder.filter (fun id => decide (id ∈ registry)) ++
    registry.filter (fun id => decide (id ∉ savedOrder))

/-- Every element of the reconciled order is a registry element, and
conversely every registry element survives reconciliation. -/
theorem mem_reconcile {s r : List String} {x : String} :
    x ∈ reconcile s r ↔ x ∈ r := by
  simp only [reconcile, List.mem_append, List.mem_filter, decide_eq_true_eq]
  constructor
  · rintro (⟨_, hr⟩ | ⟨hr, _⟩) <;> exact hr
  · intro hr
    by_cases hs : x ∈ s
    · left
      exact ⟨hs, hr⟩
    · right
      exact ⟨hr, fun hc => hs hc.1⟩

/-- Reconciling a list whose members are exactly the registry's members
returns it unchanged. -/
theorem reconcile_eq_self_of_mem_iff {t r : List String}
    (h : ∀ x, x ∈ t ↔ x ∈ r) : reconcile t r = t := by
  simp only [reconcile]
  have h1 : t.filter (fun id => decide (id ∈ r)) = t :=
    List.filter_eq_self.mpr fun a ha => by simpa using (h a).mp ha
  rw [h1]
  have h2 : r.filter (fun id => decide (id ∉ t)) = [] :=
    List.filter_eq_nil_iff.mpr fun a ha => by simpa using (h a).mpr ha
  rw [h2, List.append_nil]

/-- C1: the reconciliation computed by the code (`resolvedOrder` /
the pages' `columnOrder` effect) returns the elements of `savedOrder` that
exist in the registry, in their relative order, followed by the elements of
the registry not present in `savedOrder`, in registry order. -/
theorem reconcile_matches_spec (s r : List String) :
    reconcile s r = reconcileSpec s r := by
  simp only [reconcile, reconcileSpec]
  congr 1
  refine List.filter_congr fun x hx => ?_
  simp only [decide_eq_decide]
  constructor
  · intro hk hs
    exact hk (List.mem_filter.mpr ⟨hs, by simpa using hx⟩)
  · intro hs hk
    exact hs (List.mem_filter.mp hk).1

/-- C2: reconciliation is idempotent. -/
theorem reconcile_idempotent (s r : List String) :
    reconcile (reconcile s r) r = reconcile s r :=
  reconcile_eq_self_of_mem_iff fun _ => mem_reconcile

/-- C3: reconciliation is a no-op when the saved order already equals the
registry. -/
theorem reconcile_self (r : List String) : reconcile r r = r :=
  reconcile_eq_self_of_mem_iff fun _ => Iff.rfl

/-- C9: on duplicate-free inputs the reconciled order is a permutation of
the registry — no unknown saved id survives, no registry id is dropped,
and each registry id appears exactly once. -/
theorem reconcile_perm_registry {s r : List String}
    (hs : s.Nodup) (hr : r.Nodup) : (reconcile s r).Perm r := by
  have hnodup : (reconcile s r).Nodup := by
    simp only [reconcile]
    refine List.Nodup.append (hs.filter _) (hr.filter _) ?_
    intro x hx hmiss
    have hx' := List.mem_filter.mp hx
    have hm : x ∉ s ∨ x ∉ r := by simpa using (List.mem_filter.mp hmiss).2
    rcases hm with h | h
    · exact h hx'.1
    · exact h (by simpa using hx'.2)
  exact (List.perm_ext_iff_of_nodup hnodup hr).mpr fun _ => mem_reconcile

/-- Closed witness for `reconcile_perm_registry` at a concrete input. -/
theorem reconcile_perm_registry_witness :
    (["c", "a", "x"] : List String).Nodup ∧
      (reconcile ["c", "a", "x"] ["a", "b", "c"]).Perm ["a", "b", "c"] :=
  ⟨by decide, reconcile_perm_registry (by decide) (by decide)⟩

/-- Embeds `moveColumn` (part_000 lines 126-133):
`next.splice(dragIndex, 1)` removes (and names) the element at `dragIndex`,
then `next.splice(hoverIndex, 0, dragged)` inserts it back, JS `splice`
clamping the insertion position to the remaining length.  When `dragIndex`
is out of range JS would splice in `undefined`; the model returns the
(unchanged) list, which agrees with the code on every in-range drag index. -/
def moveColumn {α : Type} (prev : List α) (dragIndex hoverIndex : Nat) : List α :=
  match prev[dragIndex]? with
  | some dragged =>
      (prev.eraseIdx dragIndex).insertIdx
        (min hoverIndex (prev.eraseIdx dragIndex).length) dragged
  | none => prev.eraseIdx dragIndex

/-- A list is a permutation of its element at `i` consed onto the list with
index `i` erased. -/
theorem perm_cons_eraseIdx {α : Type} :
    ∀ (l : List α) (i : Nat) (h : i < l.length), l.Perm (l[i] :: l.eraseIdx i)
  | _ :: _, 0, _ => List.Perm.refl _
  | a :: l, i + 1, h => by
      have h' : i < l.length := by simpa using h
      show (a :: l).Perm (l[i] :: a :: l.eraseIdx i)
      exact ((perm_cons_eraseIdx l i h').cons a).trans (List.Perm.swap _ _ _)

/-- Inserting at an in-range position is, up to permutation, a cons. -/
theorem perm_insertIdx {α : Type} (a : α) :
    ∀ (l : List α) (n : Nat), n ≤ l.length → (l.insertIdx n a).Perm (a :: l)
  | l, 0, _ => by simp
  | b :: l, n + 1, h => by
      have h' : n ≤ l.length := by simpa using h
      rw [List.insertIdx_succ_cons]
      exact ((perm_insertIdx a l n h').cons b).trans (List.Perm.swap _ _ _)

/-- C4: moving a column between two valid indices permutes the list (same
multiset, so set membership is preserved), and only the moved element
changes position: erasing position `j` of the result undoes erasing
position `i` of the input, and position `j` of the result holds the element
that was at position `i`. -/
theorem moveColumn_spec (l : List String) (i j : Nat)
    (hi : i < l.length) (hj : j < l.length) :
    (moveColumn l i j).Perm l ∧
      (moveColumn l i j).eraseIdx j = l.eraseIdx i ∧
      (moveColumn l i j)[j]? = l[i]? := by
  have hget : l[i]? = some l[i] := List.getElem?_eq_getElem hi
  have hlen : (l.eraseIdx i).length = l.length - 1 := List.length_eraseIdx_of_lt hi
  have hj' : j ≤ (l.eraseIdx i).length := by omega
  have hmove : moveColumn l i j = (l.eraseIdx i).insertIdx j l[i] := by
    unfold moveColumn
    rw [hget]
    simp [Nat.min_eq_left hj']
  have hjlt : j < ((l.eraseIdx i).insertIdx j l[i]).length := by
    rw [List.length_insertIdx _ _ hj']
    omega
  refine ⟨?_, ?_, ?_⟩
  · rw [hmove]
    exact (perm_insertIdx _ _ _ hj').trans (perm_cons_eraseIdx l i hi).symm
  · rw [hmove, List.eraseIdx_insertIdx]
  · rw [hmove, hget, List.getElem?_eq_getElem hjlt]
    exact congrArg some (List.getElem_insertIdx_self _ _ _ hj')

/-- Closed witness for `moveColumn_spec` at a concrete input. -/
theorem moveColumn_spec_witness :
    (moveColumn ["a", "b", "c", "d"] 2 0).Perm ["a", "b", "c", "d"] ∧
      (moveColumn (["a", "b", "c", "d"] : List String) 2 0).eraseIdx 0 =
        (["a", "b", "c", "d"] : List String).eraseIdx 2 ∧
      (moveColumn (["a", "b", "c", "d"] : List String) 2 0)[0]? =
        (["a", "b", "c", "d"] : List String)[2]? :=
  moveColumn_spec ["a", "b", "c", "d"] 2 0 (by decide) (by decide)

/-- Embeds `toggleColumn` (part_000 lines 135-145) on the JS
`Set<string>` of visible columns, modelled as its insertion-ordered list of
distinct elements: `next.delete(id)` removes the occurrence of `id`
(filter, which agrees with the Set's single occurrence), `next.add(id)`
appends `id` (it is absent in that branch). -/
def toggleColumn (prev : List String) (id : String) : List String :=
  if id ∈ prev then prev.filter (fun x => decide (x ≠ id)) else prev ++ [id]

/-- C6: toggling the same column id twice yields a set equal to the
original visibility set. -/
theorem toggleColumn_toggleColumn_set_eq (s : List String) (id : String) :
    (toggleColumn (toggleColumn s id) id).toFinset = s.toFinset := by
  by_cases h : id ∈ s
  · have h1 : id ∉ s.filter (fun x => decide (x ≠ id)) := by
      simp [List.mem_filter]
    simp only [toggleColumn, h, if_pos, h1, if_neg, not_false_iff]
    ext x
    by_cases hx : x = id
    · subst hx
      simp [h]
    · simp [List.mem_filter, hx]
  · have h1 : id ∈ s ++ [id] := by simp
    simp only [toggleColumn, h, if_neg, not_false_iff, h1, if_pos]
    ext x
    by_cases hx : x = id
    · subst hx
      simp [h]
    · simp [List.mem_filter, hx]

/-- Lookup in the association-list embedding of a JS string-keyed record. -/
def lookupKey {V : Type} (id : String) : List (String × V) → Option V
  | [] => none
  | kv :: rest => if kv.1 = id then some kv.2 else lookupKey id rest

/-- Embeds JS `delete next[id]`: the binding for `id` is removed. -/
def deleteKey {V : Type} (id : String) : List (String × V) → List (String × V)
  | [] => []
  | kv :: rest => if kv.1 = id then deleteKey id rest else kv :: deleteKey id rest

/-- Embeds JS `next[id] = w` (also the spread-update
`{...prev, [columnId]: w}` of the resize handlers): an existing binding for
`id` is overwritten in place, otherwise the binding is appended. -/
def setKey {V : Type} (id : String) (w : V) : List (String × V) → List (String × V)
  | [] => [(id, w)]
  | kv :: rest => if kv.1 = id then (id, w) :: rest else kv :: setKey id w rest

/-- Embeds `updateWidth` (part_000 lines 147-157): copy the record, then
`delete next[id]` when the new width is `undefined`, else `next[id] = width`. -/
def updateWidth (prev : List (String × ℚ)) (id : String) (width : Option ℚ) :
    List (String × ℚ) :=
  match width with
  | none => deleteKey id prev
  | some w => setKey id w prev

theorem lookupKey_deleteKey {V : Type} (id : String) :
    ∀ m : List (String × V), lookupKey id (deleteKey id m) = none
  | [] => rfl
  | kv :: rest => by
      by_cases h : kv.1 = id
      · simp [deleteKey, h, lookupKey_deleteKey id rest]
      · simp [deleteKey, h, lookupKey, lookupKey_deleteKey id rest]

theorem lookupKey_setKey {V : Type} (id : String) (w : V) :
    ∀ m : List (String × V), lookupKey id (setKey id w m) = some w
  | [] => by simp [setKey, lookupKey]
  | kv :: rest => by
      by_cases h : kv.1 = id
      · simp [setKey, h, lookupKey]
      · simp [setKey, h, lookupKey, lookupKey_setKey id w rest]

/-- C5: after `updateWidth` with `undefined` the map has no entry for the
id, and after `updateWidth` with a number `w` its entry for the id is `w`. -/
theorem updateWidth_spec (m : List (String × ℚ)) (id : String) :
    lookupKey id (updateWidth m id none) = none ∧
      ∀ w : ℚ, lookupKey id (updateWidth m id (some w)) = some w :=
  ⟨lookupKey_deleteKey id m, fun w => lookupKey_setKey id w m⟩

/-- The layout record emitted by the modal's `onOk` (part_000 lines
164-170): one value carrying `columnOrder`, `showColumns` and
`columnWidths` together. -/
structure ColumnLayout where
  columnOrder : List String
  showColumns : List String
  columnWidths : List (String × ℚ)

/-- Embeds the modal's `onOk` handler: it calls `onApply` once, with
`columnOrder: resolvedOrder` (the working order reconciled against the
registry), `showColumns: Array.from(visibleColumns)` (identity on the list
model of the Set) and `columnWidths: widths`. -/
def onOkPayload (columns order visibleColumns : List String)
    (widths : List (String × ℚ)) : ColumnLayout :=
  { columnOrder := reconcile order columns
    showColumns := visibleColumns
    columnWidths := widths }

/-- The page-side column state touched by the `onApply` handler of
filaments/vendors `list.tsx`. -/
structure PageColumnState where
  columnOrder : List String
  showColumns : List String
  columnWidths : List (String × ℚ)
  editColumnsOpen : Bool

/-- Embeds the pages' `onApply` handler (filaments `list.tsx` lines
427-432): the single `nextState` payload sets all three pieces of layout
state and closes the dialog. -/
def applyLayout (st : PageColumnState) (next : ColumnLayout) : PageColumnState :=
  { st with
    columnOrder := next.columnOrder
    showColumns := next.showColumns
    columnWidths := next.columnWidths
    editColumnsOpen := false }

/-- C7: on confirm the dialog emits the new layout atomically: the single
`onOk` payload carries the reconciled working order, the visibility set and
the width map together, and applying that one payload updates all three
pieces of page state. -/
theorem confirm_emits_layout_atomically (columns order visible : List String)
    (widths : List (String × ℚ)) (st : PageColumnState) :
    onOkPayload columns order visible widths =
        ⟨reconcile order columns, visible, widths⟩ ∧
      applyLayout st (onOkPayload columns order visible widths) =
        ⟨reconcile order columns, visible, widths, false⟩ :=
  ⟨rfl, rfl⟩

/-- Embeds the `onMouseMove` width computation of `handleResizeStart`
(filaments `list.tsx` lines 221-227, vendors `list.tsx` lines 163-169):
`nextWidth = Math.max(60, startWidth + moveEvent.clientX - startX)`. -/
def resizeNextWidth (startWidth startX clientX : ℚ) : ℚ :=
  max 60 (startWidth + clientX - startX)

/-- The value the handler stores: `Math.round(nextWidth)`. -/
def resizeStoredWidth (startWidth startX clientX : ℚ) : ℤ :=
  round (resizeNextWidth startWidth startX clientX)

/-- The map update performed by the handler:
`setColumnWidths(prev => ({...prev, [columnId]: Math.round(nextWidth)}))`. -/
def resizeUpdate (prev : List (String × ℚ)) (columnId : String)
    (startWidth startX clientX : ℚ) : List (String × ℚ) :=
  setKey columnId ((resizeStoredWidth startWidth startX clientX : ℤ) : ℚ) prev

theorem lookupKey_setKey_ne {V : Type} {other id : String} (hne : other ≠ id) (w : V) :
    ∀ m : List (String × V), lookupKey other (setKey id w m) = lookupKey other m
  | [] => by simp [setKey, lookupKey, hne.symm]
  | kv :: rest => by
      by_cases h : kv.1 = id
      · simp [setKey, h, lookupKey, hne.symm]
      · simp [setKey, h, lookupKey, lookupKey_setKey_ne hne w rest]

/-- C8 is false as stated: with starting width 100, drag-start x 0 and
pointer x −80 the handler stores the clamped width 60, not
100 + (−80 − 0) = 20. -/
theorem resize_delta_formula_counterexample :
    lookupKey "name" (resizeUpdate [] "name" 100 0 (-80)) ≠
      some ((100 : ℚ) + ((-80) - 0)) := by
  have h1 : resizeNextWidth 100 0 (-80) = 60 := by
    rw [resizeNextWidth]
    norm_num
  have h2 : resizeStoredWidth 100 0 (-80) = 60 := by
    rw [resizeStoredWidth, h1]
    norm_num
  rw [resizeUpdate, h2]
  simp [setKey, lookupKey]
  norm_num

/-- C8 amended: a resize writes the dragged column's entry to
round(max(60, startWidth + (clientX − startX))) — the raw delta formula
clamped below at 60 and rounded — and leaves every other column's entry
unchanged. -/
theorem resize_writes_clamped_width (prev : List (String × ℚ)) (columnId : String)
    (startWidth startX clientX : ℚ) :
    lookupKey columnId (resizeUpdate prev columnId startWidth startX clientX) =
        some ((round (max 60 (startWidth + (clientX - startX))) : ℤ) : ℚ) ∧
      ∀ other : String, other ≠ columnId →
        lookupKey other (resizeUpdate prev columnId startWidth startX clientX) =
          lookupKey other prev := by
  constructor
  · rw [resizeUpdate, lookupKey_setKey, resizeStoredWidth, resizeNextWidth,
      add_sub_assoc]
  · intro other hne
    rw [resizeUpdate, lookupKey_setKey_ne hne]

/-- Closed witness for `resize_writes_clamped_width` at a concrete input. -/
theorem resize_writes_clamped_width_witness :
    lookupKey "a" (resizeUpdate [("b", 80)] "a" 100 0 300) = some 400 ∧
      lookupKey "b" (resizeUpdate [("b", 80)] "a" 100 0 300) = some 80 := by
  have h := resize_writes_clamped_width [("b", 80)] "a" 100 0 300
  refine ⟨?_, ?_⟩
  · rw [h.1]
    norm_num
  · rw [h.2 "b" (by decide)]
    simp [lookupKey]

/-- The `min` bound the dialog passes to the width `InputNumber`
(part_000 line 81). -/
def columnEditorWidthMin : ℚ := 60

/-- Modelled from the spec: the antd `InputNumber` component (external to
this repository) refuses values below its `min` bound, so the dialog's
width input accepts a typed value `v` only when the bound is at most `v`. -/
def inputNumberAccepts (minBound v : ℚ) : Prop := minBound ≤ v

/-- C10: the width a resize drag stores equals
round(max(60, startWidth + delta)) — an integer by construction — and is at
least 60; the dialog's width input likewise refuses values below 60. -/
theorem resize_width_min_60 (startWidth startX clientX : ℚ) :
    resizeStoredWidth startWidth startX clientX =
        round (max 60 (startWidth + (clientX - startX))) ∧
      60 ≤ resizeStoredWidth startWidth startX clientX ∧
      ∀ v : ℚ, inputNumberAccepts columnEditorWidthMin v → 60 ≤ v := by
  refine ⟨?_, ?_, ?_⟩
  · rw [resizeStoredWidth, resizeNextWidth, add_sub_assoc]
  · have hle : (60 : ℚ) ≤ resizeNextWidth startWidth startX clientX :=
      le_max_left _ _
    rw [resizeStoredWidth, round_eq]
    refine Int.le_floor.mpr ?_
    push_cast
    linarith
  · intro v hv
    exact hv

/-- Closed witness for `resize_width_min_60` at a concrete input. -/
theorem resize_width_min_60_witness :
    resizeStoredWidth 100 10 25 = round (max 60 ((100 : ℚ) + (25 - 10))) ∧
      60 ≤ resizeStoredWidth 100 10 25 ∧
      (60 : ℚ) ≤ 75 :=
  ⟨(resize_width_min_60 100 10 25).1, (resize_width_min_60 100 10 25).2.1,
    (resize_width_min_60 100 10 25).2.2 75 (by norm_num [inputNumberAccepts, columnEditorWidthMin])⟩

end Spoolman





